import Mathlib

/-!
Shallow embedding of the QR plan builder (package `qr`, file `qr.go`).

The Go code builds, for a (version, level, mask) triple, the static pixel
plan of a QR code: grid allocation, timing/position/alignment patterns,
the BCH-protected 15-bit format field, and the mask flags.

Conventions of the embedding:
* Go `Pixel` is `uint32`; every value the program ever stores fits far
  below `2^32`, and the bit operations used (`|`, `^`, `&`, shifts) are
  modelled on `Nat` with an explicit `% 2^32` at the conversions where Go
  performs a `uint32` cast of an `int` that could be out of range.
* The mutable `[][]Pixel` grid is a `List (List Pixel)`; Go assignments
  `m[y][x] = v` become `gset`, row-major exactly as in the source.
* `os.Error` results: `vplan` returns `Option Plan` where `none` models
  its single error (invalid QR version).  `fplan`, `lplan` always return
  a nil error in the source, so they are total here.  `mplan` indexes the
  `mfunc` table with the mask; an out-of-range mask is a Go runtime panic
  (slice index out of range), modelled by `Option` with `none` = panic.
* `NewPlan` distinguishes the typed error from the panic via
  `BuildOutcome`.
-/

namespace QRGo

/-- Go `type Pixel uint32`. -/
abbrev Pixel := Nat

/-- Go `Black Pixel = 1 << iota` (iota = 0). -/
def Black : Pixel := 1

/-- Go `Invert` (iota = 1). -/
def Invert : Pixel := 2

/-- Go `func OffsetPixel(o int) Pixel { return Pixel(o << 5) }`. -/
def OffsetPixel (o : Nat) : Pixel := o <<< 5

/-- Go `func (p Pixel) Offset() int { return int(p >> 5) }`. -/
def Pixel.Offset (p : Pixel) : Nat := p >>> 5

/-- PixelRole constants: `_, Position, Alignment, Timing, Format, Data, Check`. -/
def Position : Nat := 1

def Alignment : Nat := 2

def Timing : Nat := 3

def Format : Nat := 4

def Data : Nat := 5

def Check : Nat := 6

/-- Go `func (r PixelRole) Pixel() Pixel { return Pixel(r << 2) }`. -/
def rolePixel (r : Nat) : Pixel := r <<< 2

/-- Go `func (p Pixel) Role() PixelRole { return PixelRole(p>>2) & 7 }`. -/
def Pixel.Role (p : Pixel) : Nat := (p >>> 2) &&& 7

/-- The pixel grid `[][]Pixel`, row-major: outer index y (row), inner x (column). -/
abbrev Grid := List (List Pixel)

/-- Go assignment `m[y][x] = v` (indices in range wherever the source performs it). -/
def gset (g : Grid) (y x : Nat) (v : Pixel) : Grid :=
  g.set y ((g.getD y []).set x v)

/-- Go read `m[y][x]`. -/
def gget (g : Grid) (y x : Nat) : Pixel :=
  (g.getD y []).getD x 0

/-- Go `type Plan struct`; `DataBytes`, `CheckBytes`, `Blocks` stay at their
zero values (the source never assigns them). -/
structure Plan where
  Version : Int
  Level : Nat
  Mask : Int
  DataBytes : Nat
  CheckBytes : Nat
  Blocks : Nat
  Pixel : Grid
deriving Repr, DecidableEq

/-- Apply a list of `(position, value)` writes left to right
(`position` is `(row, column)`). -/
def gsets (g : Grid) (ws : List ((Nat × Nat) × Pixel)) : Grid :=
  ws.foldl (fun g w => gset g w.1.1 w.1.2 w.2) g

/-- The assignments of the timing-marker loop of `vplan`, in loop order:
for every i, `m[i][6]` and `m[6][i]` get a Timing pixel, black at even i. -/
def timingWrites (siz : Nat) : List ((Nat × Nat) × Pixel) :=
  (List.range siz).flatMap
    (fun i =>
      let p : Pixel := if i &&& 1 == 0 then rolePixel Timing ||| Black else rolePixel Timing
      [((i, 6), p), ((6, i), p)])

def timingGrid (siz : Nat) (m : Grid) : Grid :=
  gsets m (timingWrites siz)

/-- The assignments of the 7x7 box loop of `posBox(m, x, y)` (upper-left
column x, row y): black outer ring and 3x3 black center. -/
def posBoxCoreWrites (x y : Nat) : List ((Nat × Nat) × Pixel) :=
  (List.range 7).flatMap
    (fun dy =>
      (List.range 7).map
        (fun dx =>
          let p : Pixel :=
            if dx == 0 || dx == 6 || dy == 0 || dy == 6 ||
                (2 ≤ dx && dx ≤ 4 && 2 ≤ dy && dy ≤ 4) then
              rolePixel Position ||| Black
            else rolePixel Position
          ((y + dy, x + dx), p)))

/-- The values of the Go loop counter `for d := -1; d < 8; d++`. -/
def intRange9 : List Int := [-1, 0, 1, 2, 3, 4, 5, 6, 7]

/-- The assignments of the white-border loops of `posBox`: `dy`/`dx` run from
-1 to 7 (Go ints), with the source's bounds guards; `len` is `len(m)`,
invariant during `posBox`. -/
def posBoxBorderWrites (len x y : Nat) : List ((Nat × Nat) × Pixel) :=
  (intRange9.flatMap
    (fun dy =>
      if 0 ≤ (y : Int) + dy ∧ (y : Int) + dy < (len : Int) then
        (if 0 < x then [((((y : Int) + dy).toNat, x - 1), rolePixel Position)] else []) ++
        (if x + 7 < len then [((((y : Int) + dy).toNat, x + 7), rolePixel Position)] else [])
      else [])) ++
  (intRange9.flatMap
    (fun dx =>
      if 0 ≤ (x : Int) + dx ∧ (x : Int) + dx < (len : Int) then
        (if 0 < y then [((y - 1, ((x : Int) + dx).toNat), rolePixel Position)] else []) ++
        (if y + 7 < len then [((y + 7, ((x : Int) + dx).toNat), rolePixel Position)] else [])
      else []))

/-- Go `posBox`: the box then the white border (`len(m)` never changes). -/
def posBox (m : Grid) (x y : Nat) : Grid :=
  gsets m (posBoxCoreWrites x y ++ posBoxBorderWrites m.length x y)

/-- The assignments of `alignBox(m, x, y)`: 5x5 alignment box, black ring
and center. -/
def alignWrites (x y : Nat) : List ((Nat × Nat) × Pixel) :=
  (List.range 5).flatMap
    (fun dy =>
      (List.range 5).map
        (fun dx =>
          let p : Pixel :=
            if dx == 0 || dx == 4 || dy == 0 || dy == 4 || (dx == 2 && dy == 2) then
              rolePixel Alignment ||| Black
            else rolePixel Alignment
          ((y + dy, x + dx), p)))

def alignBox (m : Grid) (x y : Nat) : Grid :=
  gsets m (alignWrites x y)

/-- The per-version table `vtab` (`apos`, `astride`), index 0 a dummy. -/
def vtab : List (Nat × Nat) :=
  [(0, 0),
   (100, 100), (16, 100), (20, 100), (24, 100), (28, 100),
   (32, 100), (20, 16), (22, 18), (24, 20), (26, 22),
   (28, 24), (30, 26), (32, 28), (24, 20), (24, 22),
   (24, 24), (28, 24), (28, 26), (28, 28), (32, 28),
   (26, 22), (24, 24), (28, 24), (26, 26), (30, 26),
   (28, 28), (32, 28), (24, 24), (28, 24), (24, 26),
   (28, 26), (32, 26), (28, 28), (32, 28), (28, 24),
   (22, 26), (26, 26), (30, 26), (24, 28), (28, 28)]

/-- The values taken by the alignment loop variable in `vplan`
(`for x := 4; x+5 < siz;` with `x = 4 → apos → +astride`), fuel-bounded:
`siz` iterations always suffice. -/
def avalsGo (apos astride siz : Nat) : Nat → Nat → List Nat
  | _, 0 => []
  | x, fuel + 1 =>
    if x + 5 < siz then
      x :: avalsGo apos astride siz (if x == 4 then apos else x + astride) fuel
    else []

def avals (apos astride siz : Nat) : List Nat :=
  avalsGo apos astride siz 4 siz

/-- The skip condition of the alignment loop ("don't overwrite timing markers"). -/
def askip (siz x y : Nat) : Prop :=
  (x < 7 ∧ y < 7) ∨ (x < 7 ∧ y + 5 ≥ siz - 7) ∨ (x + 5 ≥ siz - 7 ∧ y < 7)

instance (siz x y : Nat) : Decidable (askip siz x y) := by
  unfold askip; infer_instance

/-- The `(x, y)` pairs at which the alignment loop of `vplan` actually calls
`alignBox` (outer loop on x, inner on y, skip condition `askip`). -/
def stampedPairs (apos astride siz : Nat) : List (Nat × Nat) :=
  (avals apos astride siz).flatMap
    (fun x =>
      (avals apos astride siz).filterMap
        (fun y => if askip siz x y then none else some (x, y)))

/-- The alignment-box stage of `vplan`. -/
def alignGrid (apos astride siz : Nat) (m : Grid) : Grid :=
  (stampedPairs apos astride siz).foldl (fun m b => alignBox m b.1 b.2) m

/-- Grid side for a version: `siz := 17 + int(v)*4`. -/
def vsiz (v : Nat) : Nat := 17 + v * 4

/-- The `(apos, astride)` entry for a version. -/
def vinfo (v : Nat) : Nat × Nat := vtab.getD v (0, 0)

/-- The freshly allocated all-zero grid. -/
def initGrid (siz : Nat) : Grid := List.replicate siz (List.replicate siz 0)

/-- The grid produced by `vplan` for a version known to be in range:
timing markers, the three position boxes, then the alignment boxes. -/
def vgrid (v : Nat) : Grid :=
  alignGrid (vinfo v).1 (vinfo v).2 (vsiz v)
    (posBox
      (posBox
        (posBox (timingGrid (vsiz v) (initGrid (vsiz v))) 0 0)
        (vsiz v - 7) 0)
      0 (vsiz v - 7))

/-- Go `vplan`: `none` models its single `os.Error`
(`"invalid QR version %d"`, the InvalidVersion failure). -/
def vplan (v : Int) : Option Plan :=
  if v < 1 ∨ v > 40 then none
  else
    some { Version := v, Level := 0, Mask := 0,
           DataBytes := 0, CheckBytes := 0, Blocks := 0,
           Pixel := vgrid v.toNat }

/-- Go conversion `uint32(n)` of an `int`. -/
def uint32OfInt (n : Int) : Nat := (n % 4294967296).toNat

/-- The 15-bit format codeword computed at the start of `fplan`:
`fb := uint32(l^1) << 13; fb |= uint32(m) << 10;` then the BCH loop with
generator `0x537` over bits 14..10, and `fb |= rem`. -/
def fbOf (l : Nat) (mk : Int) : Nat :=
  let fb := (((l ^^^ 1) % 4294967296) <<< 13) % 4294967296
  let fb := fb ||| ((uint32OfInt mk <<< 10) % 4294967296)
  let rem := (List.range 5).foldl
    (fun rem k =>
      let i := 14 - k
      if rem &&& (1 <<< i) != 0 then rem ^^^ (0x537 <<< (i - 10)) else rem)
    fb
  fb ||| rem

/-- The BCH reduction loop of `fplan` applied to an arbitrary register value:
for `i = 14` down to `10`, if bit `i` is set, XOR in `0x537 << (i-10)`. -/
def bchRem (w : Nat) : Nat :=
  (List.range 5).foldl
    (fun rem k =>
      let i := 14 - k
      if rem &&& (1 <<< i) != 0 then rem ^^^ (0x537 <<< (i - 10)) else rem)
    w

/-- The pixel value `fplan` writes for format bit `i`: Format role, offset i,
black iff bit i of the codeword, and both `Black` and `Invert` flipped iff
bit i of the constant `0x5412` is set. -/
def fplanPix (fb : Nat) (i : Nat) : Pixel :=
  let pix := rolePixel Format + OffsetPixel i
  let pix := if (fb >>> i) &&& 1 == 1 then pix ||| Black else pix
  if ((0x5412 : Nat) >>> i) &&& 1 == 1 then pix ^^^ (Invert ||| Black) else pix

/-- The top-left destination of format bit `i` (`fplan`'s first switch):
`(row, column)`. -/
def fplanTL (i : Nat) : Nat × Nat :=
  if i < 6 then (i, 8)
  else if i < 8 then (i + 1, 8)
  else if i < 9 then (8, 7)
  else (8, 14 - i)

/-- The bottom-right destination of format bit `i` (`fplan`'s second switch). -/
def fplanBR (siz i : Nat) : Nat × Nat :=
  if i < 8 then (8, siz - 1 - i) else (siz - 1 - (14 - i), 8)

/-- The write sequence of `fplan`'s loop: for each bit i in order, the
top-left cell then the bottom-right cell, both with the same pixel. -/
def fwrites (fb siz : Nat) : List ((Nat × Nat) × Pixel) :=
  (List.range 15).flatMap
    (fun i => [(fplanTL i, fplanPix fb i), (fplanBR siz i, fplanPix fb i)])

/-- Go `fplan` (it always returns a nil error). -/
def fplan (l : Nat) (mk : Int) (p : Plan) : Plan :=
  { p with Pixel := gsets p.Pixel (fwrites (fbOf l mk) p.Pixel.length) }

/-- Go `lplan` (sets the level; the capacity info is a TODO in the source). -/
def lplan (l : Nat) (p : Plan) : Plan :=
  { p with Level := l }

/-- The mask-function table `mfunc` (arguments `(i, j)` as in the source). -/
def mfunc : List (Nat → Nat → Bool) :=
  [fun i j => (i + j) % 2 == 0,
   fun i _ => i % 2 == 0,
   fun _ j => j % 3 == 0,
   fun i j => (i + j) % 3 == 0,
   fun i j => (i / 2 + j / 3) % 2 == 0,
   fun i j => i * j % 2 + i * j % 3 == 0,
   fun i j => (i * j % 2 + i * j % 3) % 2 == 0,
   fun i j => (i * j % 3 + (i + j) % 2) % 2 == 0]

/-- Inner loop of `mplan` over one row: Go
`for x, pix := range row { if r := pix.Role(); (r == Data || r == Check) && f(x, y) { row[x] = pix | Invert } }`.
Note the source passes the column as the first argument of `f`. -/
def mplanRow (f : Nat → Nat → Bool) (y : Nat) : Nat → List Pixel → List Pixel
  | _, [] => []
  | x, pix :: rest =>
    (if (Pixel.Role pix == Data || Pixel.Role pix == Check) && f x y then pix ||| Invert
     else pix) :: mplanRow f y (x + 1) rest

/-- Outer loop of `mplan` over the rows. -/
def mplanRows (f : Nat → Nat → Bool) : Nat → Grid → Grid
  | _, [] => []
  | y, row :: rest => mplanRow f y 0 row :: mplanRows f (y + 1) rest

/-- Go `mplan`.  `mfunc[m]` with `m` outside 0..7 is a Go runtime panic
(slice index out of range), modelled by `none`. -/
def mplan (mk : Int) (p : Plan) : Option Plan :=
  if mk < 0 then none
  else
    match mfunc.get? mk.toNat with
    | none => none
    | some f => some { p with Mask := mk, Pixel := mplanRows f 0 p.Pixel }

/-- Outcome of `NewPlan`: the returned plan, the typed InvalidVersion error
from `vplan` (the only `os.Error` ever produced), or a runtime panic. -/
inductive BuildOutcome
  | ok (p : Plan)
  | invalidVersion
  | panicked
deriving Repr, DecidableEq

/-- Go `NewPlan`: `vplan`, then `fplan`, `lplan`, `mplan` in order;
`fplan` and `lplan` always return nil errors in the source. -/
def NewPlan (version : Int) (level : Nat) (mask : Int) : BuildOutcome :=
  match vplan version with
  | none => .invalidVersion
  | some p =>
    match mplan mask (lplan level (fplan level mask p)) with
    | none => .panicked
    | some p2 => .ok p2

/-- The grid of a build outcome (empty unless construction succeeded). -/
def outGrid : BuildOutcome → Grid
  | .ok p => p.Pixel
  | _ => []

/-! ### Derived definitions used by the claims -/

/-- A grid with `siz` rows, each of length `siz`. -/
def sized (siz : Nat) (g : Grid) : Prop :=
  g.length = siz ∧ ∀ r ∈ g, r.length = siz

/-- The per-pixel transform applied by `mplan`'s loop body at row y,
column x (the source calls `f(x, y)`: column first). -/
def mstep (f : Nat → Nat → Bool) (y x : Nat) (p : Pixel) : Pixel :=
  if (Pixel.Role p == Data || Pixel.Role p == Check) && f x y then p ||| Invert else p

/-- A tiny plan with one row of two Data cells, for mask-claim checks. -/
def plan0 : Plan := ⟨1, 0, 0, 0, 0, 0, [[rolePixel Data, rolePixel Data]]⟩

/-- The grid of an optional plan (empty when absent). -/
def mOutGrid (o : Option Plan) : Grid := o.elim [] Plan.Pixel

/-- The 30 cell positions written by `fplan`, in write order. -/
def ftargets (siz : Nat) : List (Nat × Nat) :=
  (List.range 15).flatMap (fun i => [fplanTL i, fplanBR siz i])

/-- The black flag of a pixel, as a bit. -/
def blackBit (p : Pixel) : Nat := p &&& Black

/-- The rendered color of a pixel per the spec: black XOR invert. -/
def renderBit (p : Pixel) : Nat := (p &&& Black) ^^^ ((p &&& Invert) >>> 1)

/-- The 15-bit word read off the top-left format cells in offset order,
extracting one bit per pixel with `bitOf`. -/
def formatRead (g : Grid) (bitOf : Pixel → Nat) : Nat :=
  (List.range 15).foldl
    (fun acc i => acc ||| (bitOf (gget g (fplanTL i).1 (fplanTL i).2) <<< i)) 0

/-- The roles the construction actually writes: never Data, never Check. -/
def roleOK (p : Pixel) : Prop := Pixel.Role p ≠ Data ∧ Pixel.Role p ≠ Check

instance (p : Pixel) : Decidable (roleOK p) := by
  unfold roleOK
  infer_instance

def gridRoleOK (g : Grid) : Prop := ∀ y x, roleOK (gget g y x)

/-- The region of the grid holding format information (column 8 and row 8
near the three finder corners), a superset of the 30 `fplan` targets. -/
def inFZone (siz r c : Nat) : Prop :=
  (c = 8 ∧ (r ≤ 8 ∨ siz - 7 ≤ r)) ∨ (r = 8 ∧ (c ≤ 8 ∨ siz - 8 ≤ c))

instance (siz r c : Nat) : Decidable (inFZone siz r c) := by
  unfold inFZone
  infer_instance

/-- A 5x5 alignment box at upper-left column x0, row y0 avoids the format
region entirely. -/
def boxAvoidsZone (siz x0 y0 : Nat) : Prop :=
  ∀ dy, dy < 5 → ∀ dx, dx < 5 → ¬ inFZone siz (y0 + dy) (x0 + dx)

instance (siz x0 y0 : Nat) : Decidable (boxAvoidsZone siz x0 y0) := by
  unfold boxAvoidsZone
  infer_instance

/-- Spec comparison definition (follows the spec's words, not the source):
per-axis alignment candidates — start at 4, jump to `apos`, then step by
`astride` until exceeding `siz - 9`. -/
def specCands (apos astride siz : Nat) : Nat → Nat → List Nat
  | _, 0 => []
  | x, fuel + 1 =>
    if x ≤ siz - 9 then
      x :: specCands apos astride siz (if x == 4 then apos else x + astride) fuel
    else []

/-- Spec comparison definition: a 5x5 footprint with upper-left column x,
row y overlaps one of the three finder boxes together with their one-cell
light borders (the 8x8 corner zones). -/
def overlapsFinder (siz x y : Nat) : Prop :=
  (x ≤ 7 ∧ y ≤ 7) ∨ (x ≤ 7 ∧ siz - 8 ≤ y + 4) ∨ (siz - 8 ≤ x + 4 ∧ y ≤ 7)

instance (siz x y : Nat) : Decidable (overlapsFinder siz x y) := by
  unfold overlapsFinder
  infer_instance

/-- Spec comparison definition: the boxes the spec says are stamped — all
candidate pairs minus those whose footprint overlaps a finder box or its
border. -/
def specPairs (apos astride siz : Nat) : List (Nat × Nat) :=
  (specCands apos astride siz 4 siz).flatMap
    (fun x =>
      (specCands apos astride siz 4 siz).filterMap
        (fun y => if overlapsFinder siz x y then none else some (x, y)))

/-! ### Basic list lemmas -/

theorem getD_set_self {α : Type} (d v : α) (l : List α) (i : Nat) (h : i < l.length) :
    (l.set i v).getD i d = v := by
  induction l generalizing i with
  | nil => simp at h
  | cons a t ih =>
    cases i with
    | zero => rfl
    | succ n => simpa using ih n (by simpa using h)

theorem getD_set_ne {α : Type} (d v : α) (l : List α) (i j : Nat) (h : i ≠ j) :
    (l.set i v).getD j d = l.getD j d := by
  induction l generalizing i j with
  | nil => simp
  | cons a t ih =>
    cases i with
    | zero =>
      cases j with
      | zero => exact absurd rfl h
      | succ m => simp
    | succ n =>
      cases j with
      | zero => simp
      | succ m => simpa using ih n m (by omega)

theorem set_oob {α : Type} (v : α) (l : List α) (i : Nat) (h : l.length ≤ i) :
    l.set i v = l := by
  induction l generalizing i with
  | nil => simp
  | cons a t ih =>
    cases i with
    | zero => simp at h
    | succ n => simpa using ih n (by simpa using h)

theorem mem_set_or {α : Type} (v : α) (l : List α) (i : Nat) (a : α) (h : a ∈ l.set i v) :
    a = v ∨ a ∈ l := by
  induction l generalizing i with
  | nil => simp at h
  | cons b t ih =>
    cases i with
    | zero =>
      rcases (by simpa using h : a = v ∨ a ∈ t) with h | h
      · exact Or.inl h
      · exact Or.inr (List.mem_cons_of_mem _ h)
    | succ n =>
      rcases (by simpa using h : a = b ∨ a ∈ t.set n v) with h | h
      · exact Or.inr (h ▸ List.mem_cons_self _ _)
      · rcases ih n h with h | h
        · exact Or.inl h
        · exact Or.inr (List.mem_cons_of_mem _ h)

theorem getD_mem {α : Type} (d : α) (l : List α) (i : Nat) (h : i < l.length) :
    l.getD i d ∈ l := by
  induction l generalizing i with
  | nil => simp at h
  | cons a t ih =>
    cases i with
    | zero => exact List.mem_cons_self _ _
    | succ k =>
      rw [List.getD_cons_succ]
      exact List.mem_cons_of_mem _ (ih k (by simpa using h))

theorem getD_replicate_val {α : Type} (d a : α) (n i : Nat) :
    (List.replicate n a).getD i d = if i < n then a else d := by
  induction n generalizing i with
  | zero => simp
  | succ m ih =>
    cases i with
    | zero => simp
    | succ k =>
      rw [List.replicate_succ, List.getD_cons_succ, ih k]
      simp only [Nat.add_lt_add_iff_right]

theorem foldl_inv {α β : Type} (f : β → α → β) (P : β → Prop) :
    ∀ (l : List α) (init : β), P init → (∀ b a, a ∈ l → P b → P (f b a)) →
      P (l.foldl f init)
  | [], init, h, _ => h
  | a :: l, init, h, hstep =>
    foldl_inv f P l (f init a) (hstep init a (List.mem_cons_self _ _) h)
      (fun b a2 ha2 => hstep b a2 (List.mem_cons_of_mem _ ha2))

/-! ### Grid read/write lemmas -/



theorem gset_oob {g : Grid} {y : Nat} (x : Nat) (v : Pixel) (h : g.length ≤ y) :
    gset g y x v = g := by
  unfold gset
  exact set_oob _ _ _ h

theorem sized_gset {siz : Nat} {g : Grid} (h : sized siz g) (y x : Nat) (v : Pixel) :
    sized siz (gset g y x v) := by
  obtain ⟨h1, h2⟩ := h
  by_cases hy : y < g.length
  · refine ⟨by simpa [gset] using h1, ?_⟩
    intro r hr
    rcases mem_set_or _ _ _ _ hr with rfl | hr
    · rw [List.length_set]
      exact h2 _ (getD_mem _ _ _ hy)
    · exact h2 _ hr
  · rw [gset_oob _ _ (by omega)]
    exact ⟨h1, h2⟩

theorem gget_gset_self {siz : Nat} {g : Grid} (h : sized siz g) {y x : Nat}
    (hy : y < siz) (hx : x < siz) (v : Pixel) :
    gget (gset g y x v) y x = v := by
  obtain ⟨h1, h2⟩ := h
  unfold gget gset
  rw [getD_set_self _ _ _ _ (by omega)]
  rw [getD_set_self _ _ _ _ (by rw [h2 _ (getD_mem _ _ _ (by omega))]; exact hx)]

theorem gget_gset_ne {g : Grid} {y x y2 x2 : Nat} (h : y ≠ y2 ∨ x ≠ x2) (v : Pixel) :
    gget (gset g y x v) y2 x2 = gget g y2 x2 := by
  unfold gget gset
  by_cases hy : y = y2
  · subst hy
    rcases h with h | h
    · exact absurd rfl h
    · by_cases hylen : y < g.length
      · rw [getD_set_self _ _ _ _ hylen, getD_set_ne _ _ _ _ _ h]
      · rw [set_oob _ _ _ (by omega)]
  · rw [getD_set_ne _ _ _ _ _ hy]

theorem sized_gsets {siz : Nat} (ws : List ((Nat × Nat) × Pixel)) {g : Grid}
    (h : sized siz g) : sized siz (gsets g ws) := by
  unfold gsets
  exact foldl_inv _ (sized siz) ws g h (fun b a _ hb => sized_gset hb _ _ _)

theorem gget_gsets_notmem (ws : List ((Nat × Nat) × Pixel)) {y x : Nat}
    (h : ∀ w ∈ ws, w.1 ≠ (y, x)) :
    ∀ g : Grid, gget (gsets g ws) y x = gget g y x := by
  induction ws with
  | nil => intro g; rfl
  | cons w ws ih =>
    intro g
    have hw : w.1.1 ≠ y ∨ w.1.2 ≠ x := by
      have := h w (List.mem_cons_self _ _)
      by_cases h1 : w.1.1 = y
      · right; intro h2; exact this (by rw [← h1, ← h2])
      · left; exact h1
    calc gget (gsets (gset g w.1.1 w.1.2 w.2) ws) y x
        = gget (gset g w.1.1 w.1.2 w.2) y x :=
          ih (fun w2 hw2 => h w2 (List.mem_cons_of_mem _ hw2)) _
      _ = gget g y x := gget_gset_ne hw _

theorem gget_gsets_last {siz : Nat} (ws : List ((Nat × Nat) × Pixel)) {y x : Nat}
    {v : Pixel} (hy : y < siz) (hx : x < siz)
    (hmem : ((y, x), v) ∈ ws) (hlast : ∀ w ∈ ws, w.1 = (y, x) → w.2 = v) :
    ∀ g : Grid, sized siz g → gget (gsets g ws) y x = v := by
  induction ws with
  | nil => simp at hmem
  | cons w ws ih =>
    intro g hg
    by_cases hex : ∃ w2 ∈ ws, w2.1 = (y, x)
    · obtain ⟨w2, hw2, hw2p⟩ := hex
      have hv2 : w2.2 = v := hlast w2 (List.mem_cons_of_mem _ hw2) hw2p
      have : ((y, x), v) ∈ ws := by
        have : w2 = ((y, x), v) := by
          cases w2; simp at hw2p hv2 ⊢; exact ⟨hw2p, hv2⟩
        exact this ▸ hw2
      exact ih this (fun w3 hw3 => hlast w3 (List.mem_cons_of_mem _ hw3)) _
        (sized_gset hg _ _ _)
    · have hnot : ∀ w2 ∈ ws, w2.1 ≠ (y, x) := by
        intro w2 hw2 hc
        exact hex ⟨w2, hw2, hc⟩
      have hw : w = ((y, x), v) := by
        rcases List.mem_cons.mp hmem with h | h
        · exact h.symm
        · exact absurd ⟨((y, x), v), h, rfl⟩ hex
      subst hw
      show gget (gsets (gset g y x v) ws) y x = v
      rw [gget_gsets_notmem ws hnot, gget_gset_self hg hy hx]

theorem gget_foldl_eq {β : Type} (f : Grid → β → Grid) (l : List β) {y x : Nat}
    (h : ∀ g b, b ∈ l → gget (f g b) y x = gget g y x) :
    ∀ g : Grid, gget (l.foldl f g) y x = gget g y x := by
  induction l with
  | nil => intro g; rfl
  | cons b l ih =>
    intro g
    rw [List.foldl_cons, ih (fun g2 b2 hb2 => h g2 b2 (List.mem_cons_of_mem _ hb2)),
      h g b (List.mem_cons_self _ _)]

theorem sized_initGrid (siz : Nat) : sized siz (initGrid siz) := by
  refine ⟨by simp [initGrid], ?_⟩
  intro r hr
  rw [List.eq_of_mem_replicate hr]
  simp

theorem gget_initGrid (siz y x : Nat) : gget (initGrid siz) y x = 0 := by
  unfold gget initGrid
  rw [getD_replicate_val]
  by_cases hy : y < siz
  · rw [if_pos hy, getD_replicate_val]
    by_cases hx : x < siz
    · rw [if_pos hx]
    · rw [if_neg hx]
  · rw [if_neg hy]
    rfl

/-! ### Sizes through the construction stages -/

theorem sized_posBox {siz : Nat} {m : Grid} (h : sized siz m) (x y : Nat) :
    sized siz (posBox m x y) :=
  sized_gsets _ h

theorem sized_alignGrid {siz : Nat} (apos astride siz2 : Nat) {m : Grid}
    (h : sized siz m) : sized siz (alignGrid apos astride siz2 m) :=
  foldl_inv _ (sized siz) _ m h (fun b a _ hb => sized_gsets _ hb)

theorem sized_vgrid (v : Nat) : sized (vsiz v) (vgrid v) := by
  unfold vgrid
  exact sized_alignGrid _ _ _
    (sized_posBox (sized_posBox (sized_posBox (sized_gsets _ (sized_initGrid _)) _ _) _ _) _ _)

theorem length_mplanRow (f : Nat → Nat → Bool) (y : Nat) :
    ∀ (x : Nat) (row : List Pixel), (mplanRow f y x row).length = row.length
  | _, [] => rfl
  | x, pix :: rest => by
    simp only [mplanRow, List.length_cons, length_mplanRow f y (x + 1) rest]

theorem length_mplanRows (f : Nat → Nat → Bool) :
    ∀ (y : Nat) (g : Grid), (mplanRows f y g).length = g.length
  | _, [] => rfl
  | y, row :: rest => by
    simp only [mplanRows, List.length_cons, length_mplanRows f (y + 1) rest]

theorem mem_mplanRows (f : Nat → Nat → Bool) :
    ∀ (y : Nat) (g : Grid) (r : List Pixel), r ∈ mplanRows f y g →
      ∃ y2 row, row ∈ g ∧ r = mplanRow f y2 0 row
  | y, row :: rest, r, hr => by
    rcases List.mem_cons.mp hr with h | h
    · exact ⟨y, row, List.mem_cons_self _ _, h⟩
    · obtain ⟨y2, row2, hmem, heq⟩ := mem_mplanRows f (y + 1) rest r h
      exact ⟨y2, row2, List.mem_cons_of_mem _ hmem, heq⟩

theorem sized_mplanRows {siz : Nat} (f : Nat → Nat → Bool) (y : Nat) {g : Grid}
    (h : sized siz g) : sized siz (mplanRows f y g) := by
  obtain ⟨h1, h2⟩ := h
  refine ⟨by rw [length_mplanRows, h1], ?_⟩
  intro r hr
  obtain ⟨y2, row, hmem, rfl⟩ := mem_mplanRows f y g r hr
  rw [length_mplanRow]
  exact h2 _ hmem

/-! ### Unfolding `NewPlan` -/

theorem vplan_inrange {v : Int} (h1 : 1 ≤ v) (h2 : v ≤ 40) :
    vplan v = some ⟨v, 0, 0, 0, 0, 0, vgrid v.toNat⟩ := by
  unfold vplan
  rw [if_neg (by omega)]

theorem vplan_outrange {v : Int} (h : v < 1 ∨ v > 40) : vplan v = none := by
  unfold vplan
  rw [if_pos h]

theorem mplan_inrange {mk : Int} (h1 : 0 ≤ mk) (h2 : mk ≤ 7) (p : Plan) :
    ∃ f, mfunc.get? mk.toNat = some f ∧
      mplan mk p = some { p with Mask := mk, Pixel := mplanRows f 0 p.Pixel } := by
  interval_cases mk <;> exact ⟨_, rfl, rfl⟩

theorem mplan_outrange (mk : Int) (h : mk < 0 ∨ mk > 7) (p : Plan) :
    mplan mk p = none := by
  unfold mplan
  rcases h with h | h
  · rw [if_pos h]
  · rw [if_neg (by omega)]
    have : mfunc.get? mk.toNat = none := by
      apply List.get?_eq_none.mpr
      show mfunc.length ≤ mk.toNat
      simp only [mfunc, List.length_cons, List.length_nil]
      omega
    rw [this]

theorem NewPlan_ok (v : Int) (l : Nat) (mk : Int)
    (h1 : 1 ≤ v) (h2 : v ≤ 40) (h3 : 0 ≤ mk) (h4 : mk ≤ 7) :
    ∃ f, mfunc.get? mk.toNat = some f ∧
      NewPlan v l mk = .ok ⟨v, l, mk, 0, 0, 0,
        mplanRows f 0
          (gsets (vgrid v.toNat) (fwrites (fbOf l mk) (vgrid v.toNat).length))⟩ := by
  obtain ⟨f, hf, hm⟩ := mplan_inrange h3 h4
    (lplan l (fplan l mk ⟨v, 0, 0, 0, 0, 0, vgrid v.toNat⟩))
  refine ⟨f, hf, ?_⟩
  unfold NewPlan
  rw [vplan_inrange h1 h2]
  simp only [fplan, lplan] at hm
  simp only [fplan, lplan, hm]

theorem sized_NewPlan (v : Int) (l : Nat) (mk : Int) (f : Nat → Nat → Bool) :
    sized (vsiz v.toNat)
      (mplanRows f 0
        (gsets (vgrid v.toNat) (fwrites (fbOf l mk) (vgrid v.toNat).length))) :=
  sized_mplanRows _ _ (sized_gsets _ (sized_vgrid _))

/-! ### Claim theorems: construction success, sizes, error handling -/

/-- C2: for every version v in 1..40 (any level, any mask id in range),
`NewPlan` succeeds and the returned plan's grid is square with side exactly
4·v+17: the row list has that length and every row has that same length. -/
theorem C2_grid_square (v : Int) (l : Nat) (mk : Int)
    (h1 : 1 ≤ v) (h2 : v ≤ 40) (h3 : 0 ≤ mk) (h4 : mk ≤ 7) :
    ∃ p, NewPlan v l mk = .ok p ∧
      (p.Pixel.length : Int) = 4 * v + 17 ∧
      ∀ row ∈ p.Pixel, (row.length : Int) = 4 * v + 17 := by
  obtain ⟨f, _, hok⟩ := NewPlan_ok v l mk h1 h2 h3 h4
  obtain ⟨hlen, hrows⟩ := sized_NewPlan v l mk f
  refine ⟨_, hok, ?_, ?_⟩
  · dsimp only
    rw [hlen]
    unfold vsiz
    omega
  · dsimp only
    intro row hrow
    rw [hrows row hrow]
    unfold vsiz
    omega

/-- Witness for C2 at version 1, level M, mask 0. -/
theorem C2_grid_square_witness :
    ∃ p, NewPlan 1 1 0 = .ok p ∧
      (p.Pixel.length : Int) = 4 * 1 + 17 ∧
      ∀ row ∈ p.Pixel, (row.length : Int) = 4 * 1 + 17 :=
  C2_grid_square 1 1 0 (by decide) (by decide) (by decide) (by decide)

/-- C3: `NewPlan` fails with the InvalidVersion error exactly when the
version is outside 1..40 (for every level and mask); no plan or grid is
returned in that case (the `invalidVersion` outcome carries none), and no
other input produces this typed failure. -/
theorem C3_invalid_version (v : Int) (l : Nat) (mk : Int) :
    NewPlan v l mk = .invalidVersion ↔ (v < 1 ∨ v > 40) := by
  constructor
  · intro h
    by_contra hc
    push_neg at hc
    by_cases hmk : 0 ≤ mk ∧ mk ≤ 7
    · obtain ⟨f, _, hok⟩ := NewPlan_ok v l mk hc.1 hc.2 hmk.1 hmk.2
      rw [hok] at h
      exact BuildOutcome.noConfusion h
    · have hout : mk < 0 ∨ mk > 7 := by omega
      have hpan : NewPlan v l mk = .panicked := by
        unfold NewPlan
        rw [vplan_inrange hc.1 hc.2]
        simp only [mplan_outrange mk hout]
      rw [hpan] at h
      exact BuildOutcome.noConfusion h
  · intro h
    unfold NewPlan
    rw [vplan_outrange h]

/-- Witness for C3 at version 41. -/
theorem C3_invalid_version_witness : NewPlan 41 1 0 = .invalidVersion :=
  (C3_invalid_version 41 1 0).mpr (by decide)

/-- C10: for any valid version and level, a mask id outside 0..7 makes the
`mfunc` table lookup in `mplan` an out-of-bounds access, a runtime fault
(`panicked`), not a typed error; a mask id in 0..7 finds its entry and
`mplan` (hence `NewPlan`) succeeds. -/
theorem C10_mask_fault (v : Int) (l : Nat) (mk : Int) (h1 : 1 ≤ v) (h2 : v ≤ 40) :
    ((mk < 0 ∨ mk > 7) → NewPlan v l mk = .panicked) ∧
    (mk > 7 → mfunc.get? mk.toNat = none) ∧
    (0 ≤ mk → mk ≤ 7 →
      (∃ f, mfunc.get? mk.toNat = some f) ∧ ∃ p, NewPlan v l mk = .ok p) := by
  refine ⟨?_, ?_, ?_⟩
  · intro h
    unfold NewPlan
    rw [vplan_inrange h1 h2]
    simp only [mplan_outrange mk h]
  · intro h
    apply List.get?_eq_none.mpr
    show mfunc.length ≤ mk.toNat
    simp only [mfunc, List.length_cons, List.length_nil]
    omega
  · intro h3 h4
    obtain ⟨f, hf, hok⟩ := NewPlan_ok v l mk h1 h2 h3 h4
    exact ⟨⟨f, hf⟩, _, hok⟩

/-- Witness for C10: mask 8 panics, mask -1 panics, mask 3 succeeds. -/
theorem C10_mask_fault_witness :
    NewPlan 1 1 8 = .panicked ∧ NewPlan 1 1 (-1) = .panicked ∧
      ∃ p, NewPlan 1 1 3 = .ok p :=
  ⟨(C10_mask_fault 1 1 8 (by decide) (by decide)).1 (by decide),
   (C10_mask_fault 1 1 (-1) (by decide) (by decide)).1 (by decide),
   ((C10_mask_fault 1 1 3 (by decide) (by decide)).2.2 (by decide) (by decide)).2⟩

/-! ### Claim theorem: the BCH format round trip -/

/-- C4: for each of the 32 (level, mask) cases, the 15-bit codeword `fb`
computed by `fplan` carries the level (XOR 1) in bits 14-13 and the mask id
in bits 12-10, and undoing the 0x5412 placement XOR and re-running the BCH
reduction with generator 0x537 leaves remainder zero (the pre-XOR codeword
is a multiple of the generator). -/
theorem C4_bch_roundtrip (l mk : Nat) (hl : l < 4) (hm : mk < 8) :
    bchRem ((fbOf l (mk : Int) ^^^ 0x5412) ^^^ 0x5412) = 0 ∧
    fbOf l (mk : Int) >>> 13 = l ^^^ 1 ∧
    (fbOf l (mk : Int) >>> 10) &&& 7 = mk := by
  interval_cases l <;> interval_cases mk <;> exact ⟨by decide, by decide, by decide⟩

/-- Witness for C4 at level Q, mask 5. -/
theorem C4_bch_roundtrip_witness :
    bchRem ((fbOf 2 (5 : Int) ^^^ 0x5412) ^^^ 0x5412) = 0 ∧
    fbOf 2 (5 : Int) >>> 13 = 2 ^^^ 1 ∧
    (fbOf 2 (5 : Int) >>> 10) &&& 7 = 5 :=
  C4_bch_roundtrip 2 5 (by decide) (by decide)

/-! ### The pointwise behaviour of `mplan` -/



theorem mstep_zero (f : Nat → Nat → Bool) (y x : Nat) : mstep f y x 0 = 0 := by
  unfold mstep
  rw [if_neg]
  simp [Pixel.Role, Data, Check]

theorem mplanRow_getD (f : Nat → Nat → Bool) (y : Nat) :
    ∀ (row : List Pixel) (x0 x : Nat),
      (mplanRow f y x0 row).getD x 0 = mstep f y (x0 + x) (row.getD x 0)
  | [], x0, x => by
    have h0 : ([] : List Pixel).getD x 0 = 0 := by simp
    rw [show mplanRow f y x0 [] = [] from rfl, h0, mstep_zero]
  | pix :: rest, x0, 0 => by
    simp only [mplanRow, List.getD_cons_zero, mstep, Nat.add_zero]
  | pix :: rest, x0, x + 1 => by
    simp only [mplanRow, List.getD_cons_succ]
    rw [mplanRow_getD f y rest (x0 + 1) x]
    have : x0 + 1 + x = x0 + (x + 1) := by omega
    rw [this]

theorem mplanRows_gget (f : Nat → Nat → Bool) :
    ∀ (g : Grid) (y0 y x : Nat),
      gget (mplanRows f y0 g) y x = mstep f (y0 + y) x (gget g y x)
  | [], y0, y, x => by
    show (0 : Pixel) = mstep f (y0 + y) x 0
    rw [mstep_zero]
  | row :: rest, y0, 0, x => by
    show (mplanRow f y0 0 row).getD x 0 = mstep f (y0 + 0) x (row.getD x 0)
    rw [mplanRow_getD f y0 row 0 x, Nat.add_zero, Nat.zero_add]
  | row :: rest, y0, y + 1, x => by
    show gget (mplanRows f (y0 + 1) rest) y x = mstep f (y0 + (y + 1)) x (gget rest y x)
    rw [mplanRows_gget f rest (y0 + 1) y x]
    have : y0 + 1 + y = y0 + (y + 1) := by omega
    rw [this]

theorem mstep_eq_of_role {f : Nat → Nat → Bool} {y x : Nat} {p : Pixel}
    (h5 : Pixel.Role p ≠ Data) (h6 : Pixel.Role p ≠ Check) :
    mstep f y x p = p := by
  unfold mstep
  rw [if_neg]
  simp [Bool.and_eq_true, beq_iff_eq, h5, h6]

/-! ### Claim theorems: the mask applicator -/

/-- C7 (amended): for every plan and mask id in 0..7, after `mplan` the
black flag (bit 0) of every cell is unchanged; a Data/Check cell ends with
its invert flag (bit 1) set iff it was already set or the mask formula
holds with its first argument the cell's COLUMN index and its second the
ROW index (the source calls `f(x, y)`); every other cell is unchanged. -/
theorem C7_mask_invert (p : Plan) (mk : Int) (h3 : 0 ≤ mk) (h4 : mk ≤ 7) :
    ∃ p2, mplan mk p = some p2 ∧
      ∀ y x : Nat,
        (gget p2.Pixel y x).testBit 0 = (gget p.Pixel y x).testBit 0 ∧
        ((Pixel.Role (gget p.Pixel y x) = Data ∨ Pixel.Role (gget p.Pixel y x) = Check) →
          (gget p2.Pixel y x).testBit 1 =
            ((gget p.Pixel y x).testBit 1 ||
              mfunc.getD mk.toNat (fun _ _ => false) x y)) ∧
        (¬(Pixel.Role (gget p.Pixel y x) = Data ∨ Pixel.Role (gget p.Pixel y x) = Check) →
          gget p2.Pixel y x = gget p.Pixel y x) := by
  obtain ⟨f, hf, hm⟩ := mplan_inrange h3 h4 p
  refine ⟨_, hm, ?_⟩
  intro y x
  have hgd : mfunc.getD mk.toNat (fun _ _ => false) = f := by
    rw [List.getD_eq_getD_get?, hf]
    rfl
  have hnew : gget (mplanRows f 0 p.Pixel) y x = mstep f y x (gget p.Pixel y x) := by
    rw [mplanRows_gget f p.Pixel 0 y x, Nat.zero_add]
  dsimp only
  rw [hnew, hgd]
  by_cases hrole : Pixel.Role (gget p.Pixel y x) = Data ∨ Pixel.Role (gget p.Pixel y x) = Check
  · have hb : (Pixel.Role (gget p.Pixel y x) == Data ||
        Pixel.Role (gget p.Pixel y x) == Check) = true := by
      rcases hrole with h | h <;> simp [h]
    cases hfx : f x y with
    | false =>
      unfold mstep
      rw [hb, hfx]
      refine ⟨rfl, fun _ => by simp, fun hc => absurd hrole hc⟩
    | true =>
      unfold mstep
      rw [hb, hfx]
      simp only [Bool.and_self, if_true, Bool.true_and, if_pos]
      refine ⟨?_, fun _ => ?_, fun hc => absurd hrole hc⟩
      · rw [Nat.testBit_or]
        simp [Invert]
      · rw [Nat.testBit_or]
        simp only [Invert]
        simp
        exact Or.inr (by decide)
  · push_neg at hrole
    rw [mstep_eq_of_role hrole.1 hrole.2]
    exact ⟨rfl, fun hc => absurd hc (by push_neg; exact hrole), fun _ => rfl⟩



/-- C7 counterexample: in a 1x2 grid of Data cells under mask 1 (formula
`i % 2 == 0`), the cell at row 0, column 1 satisfies the formula with
i = its row index (0 % 2 == 0), yet `mplan` leaves its invert flag clear,
because the source evaluates the formula with i = column, j = row. -/
theorem C7_mask_invert_counterexample :
    Pixel.Role (gget plan0.Pixel 0 1) = Data ∧
    ¬(((gget (mOutGrid (mplan 1 plan0)) 0 1).testBit 1 = true) ↔
        (mfunc.getD 1 (fun _ _ => false) 0 1 = true)) := by
  decide

/-! ### The format writes of `fplan` on the grid -/



theorem fwrites_map_fst (fb siz : Nat) :
    (fwrites fb siz).map Prod.fst = ftargets siz := by
  simp [fwrites, ftargets, List.map_flatMap]

theorem ftargets_eq (siz : Nat) :
    ftargets siz =
      [(0, 8), (8, siz - 1), (1, 8), (8, siz - 2), (2, 8), (8, siz - 3),
       (3, 8), (8, siz - 4), (4, 8), (8, siz - 5), (5, 8), (8, siz - 6),
       (7, 8), (8, siz - 7), (8, 8), (8, siz - 8), (8, 7), (siz - 7, 8),
       (8, 5), (siz - 6, 8), (8, 4), (siz - 5, 8), (8, 3), (siz - 4, 8),
       (8, 2), (siz - 3, 8), (8, 1), (siz - 2, 8), (8, 0), (siz - 1, 8)] := rfl

theorem ftargets_nodup {siz : Nat} (h : 21 ≤ siz) : (ftargets siz).Nodup := by
  rw [ftargets_eq]
  simp only [List.nodup_cons, List.mem_cons, List.not_mem_nil, or_false, not_or,
    Prod.mk.injEq, not_and, List.nodup_nil, and_true]
  norm_num
  omega

/-- In a write list whose positions are distinct, every write at a given
position carries the value of the unique write there. -/
theorem nodup_last {ws : List ((Nat × Nat) × Pixel)}
    (hnd : (ws.map Prod.fst).Nodup) {pos : Nat × Nat} {v : Pixel}
    (hmem : (pos, v) ∈ ws) : ∀ w ∈ ws, w.1 = pos → w.2 = v := by
  induction ws with
  | nil => simp at hmem
  | cons w0 ws ih =>
    rw [List.map_cons] at hnd
    obtain ⟨hnd1, hnd2⟩ := List.nodup_cons.mp hnd
    intro w hw hwp
    rcases List.mem_cons.mp hw with rfl | hw2
    · rcases List.mem_cons.mp hmem with h | h
      · rw [← h]
      · exfalso
        apply hnd1
        rw [hwp]
        exact List.mem_map_of_mem Prod.fst h
    · rcases List.mem_cons.mp hmem with h | h
      · exfalso
        apply hnd1
        rw [← h]
        show (pos, v).1 ∈ ws.map Prod.fst
        rw [show (pos, v).1 = pos from rfl, ← hwp]
        exact List.mem_map_of_mem Prod.fst hw2
      · exact ih hnd2 h w hw2 hwp

theorem gget_fplan_tl {siz : Nat} (h21 : 21 ≤ siz) {g : Grid} (hg : sized siz g)
    (fb : Nat) (i : Nat) (hi : i < 15) :
    gget (gsets g (fwrites fb siz)) (fplanTL i).1 (fplanTL i).2 = fplanPix fb i := by
  have hnd : ((fwrites fb siz).map Prod.fst).Nodup := by
    rw [fwrites_map_fst]
    exact ftargets_nodup h21
  have hmem : ((fplanTL i).1, (fplanTL i).2) = fplanTL i := rfl
  refine gget_gsets_last (fwrites fb siz) ?_ ?_ ?_ ?_ g hg
  · interval_cases i <;> simp [fplanTL] <;> omega
  · interval_cases i <;> simp [fplanTL] <;> omega
  · rw [show (((fplanTL i).1, (fplanTL i).2), fplanPix fb i) =
        (fplanTL i, fplanPix fb i) from rfl]
    exact List.mem_flatMap.mpr ⟨i, List.mem_range.mpr hi, List.mem_cons_self _ _⟩
  · rw [hmem]
    exact nodup_last hnd
      (List.mem_flatMap.mpr ⟨i, List.mem_range.mpr hi, List.mem_cons_self _ _⟩)

theorem gget_fplan_br {siz : Nat} (h21 : 21 ≤ siz) {g : Grid} (hg : sized siz g)
    (fb : Nat) (i : Nat) (hi : i < 15) :
    gget (gsets g (fwrites fb siz)) (fplanBR siz i).1 (fplanBR siz i).2 =
      fplanPix fb i := by
  have hnd : ((fwrites fb siz).map Prod.fst).Nodup := by
    rw [fwrites_map_fst]
    exact ftargets_nodup h21
  have hbrmem : (fplanBR siz i, fplanPix fb i) ∈ fwrites fb siz :=
    List.mem_flatMap.mpr ⟨i, List.mem_range.mpr hi,
      List.mem_cons_of_mem _ (List.mem_cons_self _ _)⟩
  refine gget_gsets_last (fwrites fb siz) ?_ ?_ ?_ ?_ g hg
  · interval_cases i <;> simp [fplanBR] <;> omega
  · interval_cases i <;> simp [fplanBR] <;> omega
  · exact hbrmem
  · exact nodup_last hnd hbrmem

theorem gget_fplan_untouched {fb siz : Nat} {y x : Nat}
    (h : (y, x) ∉ ftargets siz) (g : Grid) :
    gget (gsets g (fwrites fb siz)) y x = gget g y x := by
  apply gget_gsets_notmem
  intro w hw hc
  apply h
  rw [← fwrites_map_fst fb siz, ← hc]
  exact List.mem_map_of_mem Prod.fst hw

theorem role_offset_fplanPix (fb i : Nat) (hi : i < 15) :
    Pixel.Role (fplanPix fb i) = Format ∧ Pixel.Offset (fplanPix fb i) = i := by
  have hb : (fb >>> i) &&& 1 = 0 ∨ (fb >>> i) &&& 1 = 1 := by
    have h1 : (fb >>> i) &&& 1 ≤ 1 := Nat.and_le_right
    omega
  unfold fplanPix
  interval_cases i <;> rcases hb with hb | hb <;> rw [hb] <;> decide

/-- Value of a format cell in the final `NewPlan` grid: the pixel `fplan`
wrote there (nothing later touches a Format-role cell). -/
theorem format_cell_value (v : Nat) (hv1 : 1 ≤ v) (hv2 : v ≤ 40) (l : Nat)
    (mk : Int) (f : Nat → Nat → Bool) (i : Nat) (hi : i < 15) :
    gget (mplanRows f 0 (gsets (vgrid v) (fwrites (fbOf l mk) (vgrid v).length)))
        (fplanTL i).1 (fplanTL i).2 = fplanPix (fbOf l mk) i ∧
    gget (mplanRows f 0 (gsets (vgrid v) (fwrites (fbOf l mk) (vgrid v).length)))
        (fplanBR (vsiz v) i).1 (fplanBR (vsiz v) i).2 = fplanPix (fbOf l mk) i := by
  have h21 : 21 ≤ vsiz v := by unfold vsiz; omega
  have hvg := sized_vgrid v
  have hrole := (role_offset_fplanPix (fbOf l mk) i hi).1
  rw [hvg.1]
  constructor
  · rw [mplanRows_gget, Nat.zero_add, gget_fplan_tl h21 hvg (fbOf l mk) i hi]
    exact mstep_eq_of_role (by rw [hrole]; decide) (by rw [hrole]; decide)
  · rw [mplanRows_gget, Nat.zero_add, gget_fplan_br h21 hvg (fbOf l mk) i hi]
    exact mstep_eq_of_role (by rw [hrole]; decide) (by rw [hrole]; decide)

/-! ### Claim theorems: format placement -/



/-- C6: for every valid (version, level, mask), `fplan` puts each of the 15
format bits into exactly two cells — the 30 target positions are pairwise
distinct — one copy with both coordinates ≤ 8 (top-left finder corner) and
one mirrored copy touching the far edges; the two cells of each bit hold
the identical pixel, with Format role and offset = bit index, so the two
redundant placements decode to the same 15-bit value. -/
theorem C6_format_redundancy (v : Int) (l : Nat) (mk : Int)
    (h1 : 1 ≤ v) (h2 : v ≤ 40) (h3 : 0 ≤ mk) (h4 : mk ≤ 7) :
    ∃ p, NewPlan v l mk = .ok p ∧
      (ftargets p.Pixel.length).Nodup ∧
      (ftargets p.Pixel.length).length = 30 ∧
      ∀ i, i < 15 →
        (fplanTL i).1 ≤ 8 ∧ (fplanTL i).2 ≤ 8 ∧
        ((fplanBR p.Pixel.length i).1 = 8 ∧
            p.Pixel.length - 8 ≤ (fplanBR p.Pixel.length i).2 ∨
          (fplanBR p.Pixel.length i).2 = 8 ∧
            p.Pixel.length - 7 ≤ (fplanBR p.Pixel.length i).1) ∧
        gget p.Pixel (fplanTL i).1 (fplanTL i).2 =
          gget p.Pixel (fplanBR p.Pixel.length i).1 (fplanBR p.Pixel.length i).2 ∧
        Pixel.Role (gget p.Pixel (fplanTL i).1 (fplanTL i).2) = Format ∧
        Pixel.Offset (gget p.Pixel (fplanTL i).1 (fplanTL i).2) = i := by
  obtain ⟨f, hf, hok⟩ := NewPlan_ok v l mk h1 h2 h3 h4
  have h21 : 21 ≤ vsiz v.toNat := by unfold vsiz; omega
  have hPlen : (mplanRows f 0 (gsets (vgrid v.toNat)
      (fwrites (fbOf l mk) (vgrid v.toNat).length))).length = vsiz v.toNat :=
    (sized_NewPlan v l mk f).1
  refine ⟨_, hok, ?_⟩
  dsimp only
  rw [hPlen]
  refine ⟨ftargets_nodup h21, by rw [ftargets_eq]; rfl, ?_⟩
  intro i hi
  obtain ⟨hT, hB⟩ := format_cell_value v.toNat (by omega) (by omega) l mk f i hi
  refine ⟨?_, ?_, ?_, ?_, ?_, ?_⟩
  · interval_cases i <;> decide
  · interval_cases i <;> decide
  · interval_cases i <;> simp [fplanBR] <;> omega
  · rw [hT, hB]
  · rw [hT]
    exact (role_offset_fplanPix (fbOf l mk) i hi).1
  · rw [hT]
    exact (role_offset_fplanPix (fbOf l mk) i hi).2

/-- Witness for C6 at version 1, level M, mask 0. -/
theorem C6_format_redundancy_witness :
    ∃ p, NewPlan 1 1 0 = .ok p ∧
      (ftargets p.Pixel.length).Nodup ∧
      (ftargets p.Pixel.length).length = 30 ∧
      ∀ i, i < 15 →
        (fplanTL i).1 ≤ 8 ∧ (fplanTL i).2 ≤ 8 ∧
        ((fplanBR p.Pixel.length i).1 = 8 ∧
            p.Pixel.length - 8 ≤ (fplanBR p.Pixel.length i).2 ∨
          (fplanBR p.Pixel.length i).2 = 8 ∧
            p.Pixel.length - 7 ≤ (fplanBR p.Pixel.length i).1) ∧
        gget p.Pixel (fplanTL i).1 (fplanTL i).2 =
          gget p.Pixel (fplanBR p.Pixel.length i).1 (fplanBR p.Pixel.length i).2 ∧
        Pixel.Role (gget p.Pixel (fplanTL i).1 (fplanTL i).2) = Format ∧
        Pixel.Offset (gget p.Pixel (fplanTL i).1 (fplanTL i).2) = i :=
  C6_format_redundancy 1 1 0 (by decide) (by decide) (by decide) (by decide)

/-- C5 (amended): for level M and mask 0 (any valid version), the format
codeword `fb` computed by `fplan` is 0 (info bits 0b00000, BCH remainder 0),
the BLACK flags of the 15 format cells in offset order spell 0x5412
exactly, and the spec's rendered color (black XOR invert) spells the
codeword 0 — not 0x5412, since `fplan` flips black and invert together. -/
theorem C5_format_M0 (v : Int) (h1 : 1 ≤ v) (h2 : v ≤ 40) :
    fbOf 1 0 = 0 ∧
    formatRead (outGrid (NewPlan v 1 0)) blackBit = 0x5412 ∧
    formatRead (outGrid (NewPlan v 1 0)) renderBit = 0 := by
  obtain ⟨f, hf, hok⟩ := NewPlan_ok v 1 0 h1 h2 (by decide) (by decide)
  have hcell : ∀ i : Nat, i < 15 →
      gget (mplanRows f 0 (gsets (vgrid v.toNat)
          (fwrites (fbOf 1 0) (vgrid v.toNat).length)))
        (fplanTL i).1 (fplanTL i).2 = fplanPix (fbOf 1 0) i :=
    fun i hi => (format_cell_value v.toNat (by omega) (by omega) 1 0 f i hi).1
  rw [hok]
  simp only [outGrid]
  refine ⟨rfl, ?_, ?_⟩ <;>
  · unfold formatRead
    rw [show List.range 15 = [0, 1, 2, 3, 4, 5, 6, 7, 8, 9, 10, 11, 12, 13, 14] from rfl]
    simp only [List.foldl_cons, List.foldl_nil]
    rw [hcell 0 (by decide), hcell 1 (by decide), hcell 2 (by decide),
      hcell 3 (by decide), hcell 4 (by decide), hcell 5 (by decide),
      hcell 6 (by decide), hcell 7 (by decide), hcell 8 (by decide),
      hcell 9 (by decide), hcell 10 (by decide), hcell 11 (by decide),
      hcell 12 (by decide), hcell 13 (by decide), hcell 14 (by decide)]
    decide

/-- Witness for C5 at version 2. -/
theorem C5_format_M0_witness :
    fbOf 1 0 = 0 ∧
    formatRead (outGrid (NewPlan 2 1 0)) blackBit = 0x5412 ∧
    formatRead (outGrid (NewPlan 2 1 0)) renderBit = 0 :=
  C5_format_M0 2 (by decide) (by decide)

set_option maxRecDepth 200000 in
/-- C5 counterexample: at version 1, level M, mask 0, the drawn pattern
read as the spec's rendered color (black XOR invert) of the 15 format
cells is NOT 0x5412 (it is the codeword 0): flipping black and invert
together leaves black XOR invert unchanged. -/
theorem C5_format_M0_counterexample :
    formatRead (outGrid (NewPlan 1 1 0)) renderBit ≠ 0x5412 := by
  decide

/-! ### No cell ever receives a Data or Check role -/



theorem gget_gset_cases (g : Grid) (y x y2 x2 : Nat) (v : Pixel) :
    gget (gset g y x v) y2 x2 = v ∨ gget (gset g y x v) y2 x2 = gget g y2 x2 := by
  by_cases h : y = y2 ∧ x = x2
  · obtain ⟨rfl, rfl⟩ := h
    by_cases hy : y < g.length
    · by_cases hx : x < (g.getD y []).length
      · left
        unfold gget gset
        rw [getD_set_self _ _ _ _ hy, getD_set_self _ _ _ _ hx]
      · right
        unfold gget gset
        rw [getD_set_self _ _ _ _ hy, set_oob _ _ _ (by omega)]
    · right
      rw [gset_oob _ _ (by omega)]
  · right
    exact gget_gset_ne (by tauto) v

theorem gridRoleOK_gsets {ws : List ((Nat × Nat) × Pixel)}
    (hws : ∀ w ∈ ws, roleOK w.2) {g : Grid} (hg : gridRoleOK g) :
    gridRoleOK (gsets g ws) := by
  unfold gsets
  refine foldl_inv _ gridRoleOK ws g hg ?_
  intro b w hw hb y x
  rcases gget_gset_cases b w.1.1 w.1.2 y x w.2 with h | h
  · rw [h]
    exact hws w hw
  · rw [h]
    exact hb y x

theorem roleOK_timingWrites (siz : Nat) : ∀ w ∈ timingWrites siz, roleOK w.2 := by
  intro w hw
  obtain ⟨i, _, hmem⟩ := List.mem_flatMap.mp hw
  dsimp only at hmem
  have hp : roleOK (if i &&& 1 == 0 then rolePixel Timing ||| Black else rolePixel Timing) := by
    split <;> decide
  rcases List.mem_cons.mp hmem with rfl | hmem2
  · exact hp
  · rcases List.mem_cons.mp hmem2 with rfl | hmem3
    · exact hp
    · simp at hmem3

theorem roleOK_posBoxCoreWrites (x y : Nat) :
    ∀ w ∈ posBoxCoreWrites x y, roleOK w.2 := by
  intro w hw
  obtain ⟨dy, _, hmem⟩ := List.mem_flatMap.mp hw
  obtain ⟨dx, _, hval⟩ := List.mem_map.mp hmem
  rw [← hval]
  dsimp only
  split <;> decide

theorem roleOK_posBoxBorderWrites (len x y : Nat) :
    ∀ w ∈ posBoxBorderWrites len x y, roleOK w.2 := by
  intro w hw
  have hval : w.2 = rolePixel Position := by
    rcases List.mem_append.mp hw with h | h <;>
    · obtain ⟨d, _, hmem⟩ := List.mem_flatMap.mp h
      split at hmem
      · rcases List.mem_append.mp hmem with h2 | h2 <;>
        · split at h2
          · rcases List.mem_cons.mp h2 with rfl | h3
            · rfl
            · simp at h3
          · simp at h2
      · simp at hmem
  rw [hval]
  decide

theorem roleOK_alignWrites (x y : Nat) : ∀ w ∈ alignWrites x y, roleOK w.2 := by
  intro w hw
  obtain ⟨dy, _, hmem⟩ := List.mem_flatMap.mp hw
  obtain ⟨dx, _, hval⟩ := List.mem_map.mp hmem
  rw [← hval]
  dsimp only
  split <;> decide

theorem roleOK_fwrites (fb siz : Nat) : ∀ w ∈ fwrites fb siz, roleOK w.2 := by
  intro w hw
  obtain ⟨i, hi, hmem⟩ := List.mem_flatMap.mp hw
  have hrole := (role_offset_fplanPix fb i (List.mem_range.mp hi)).1
  have hp : roleOK (fplanPix fb i) := by
    constructor <;> rw [hrole] <;> decide
  rcases List.mem_cons.mp hmem with rfl | hmem2
  · exact hp
  · rcases List.mem_cons.mp hmem2 with rfl | hmem3
    · exact hp
    · simp at hmem3

theorem role_or_invert (p : Pixel) : Pixel.Role (p ||| Invert) = Pixel.Role p := by
  unfold Pixel.Role Invert
  have h : (p ||| 2) >>> 2 = p >>> 2 := by
    apply Nat.eq_of_testBit_eq
    intro i
    rw [Nat.testBit_shiftRight, Nat.testBit_shiftRight, Nat.testBit_or]
    have h2 : (2 : Nat).testBit (2 + i) = false := by
      have hlt : (2 : Nat) < 2 ^ (2 + i) := by
        calc (2 : Nat) < 4 := by norm_num
          _ ≤ 2 ^ (2 + i) := by
              rw [show (4 : Nat) = 2 ^ 2 from rfl]
              exact Nat.pow_le_pow_right (by norm_num) (by omega)
      exact Nat.testBit_lt_two_pow hlt
    rw [h2, Bool.or_false]
  rw [h]

theorem roleOK_mstep {f : Nat → Nat → Bool} {y x : Nat} {p : Pixel}
    (h : roleOK p) : roleOK (mstep f y x p) := by
  unfold mstep
  split
  · exact ⟨by rw [role_or_invert]; exact h.1, by rw [role_or_invert]; exact h.2⟩
  · exact h

theorem gridRoleOK_mplanRows (f : Nat → Nat → Bool) (y0 : Nat) {g : Grid}
    (hg : gridRoleOK g) : gridRoleOK (mplanRows f y0 g) := by
  intro y x
  rw [mplanRows_gget f g y0 y x]
  exact roleOK_mstep (hg y x)

theorem gridRoleOK_vgrid (v : Nat) : gridRoleOK (vgrid v) := by
  unfold vgrid alignGrid timingGrid posBox
  apply foldl_inv _ gridRoleOK
  · apply gridRoleOK_gsets
    · intro w hw
      rcases List.mem_append.mp hw with h | h
      · exact roleOK_posBoxCoreWrites _ _ w h
      · exact roleOK_posBoxBorderWrites _ _ _ w h
    apply gridRoleOK_gsets
    · intro w hw
      rcases List.mem_append.mp hw with h | h
      · exact roleOK_posBoxCoreWrites _ _ w h
      · exact roleOK_posBoxBorderWrites _ _ _ w h
    apply gridRoleOK_gsets
    · intro w hw
      rcases List.mem_append.mp hw with h | h
      · exact roleOK_posBoxCoreWrites _ _ w h
      · exact roleOK_posBoxBorderWrites _ _ _ w h
    apply gridRoleOK_gsets (roleOK_timingWrites _)
    intro y x
    rw [gget_initGrid]
    decide
  · intro b a _ hb
    exact gridRoleOK_gsets (roleOK_alignWrites _ _) hb

/-! ### Claim theorems: no Data/Check marking -/

/-- C1 (amended): for every valid (version, level, mask), NO cell of the
grid returned by `NewPlan` carries role Data or Check: the cells outside
the timing, position, alignment and format patterns are left with role
none (0) — the construction never marks payload or error-correction
cells. -/
theorem C1_no_data_cells (v : Int) (l : Nat) (mk : Int)
    (h1 : 1 ≤ v) (h2 : v ≤ 40) (h3 : 0 ≤ mk) (h4 : mk ≤ 7) :
    ∀ y x : Nat,
      Pixel.Role (gget (outGrid (NewPlan v l mk)) y x) ≠ Data ∧
      Pixel.Role (gget (outGrid (NewPlan v l mk)) y x) ≠ Check := by
  obtain ⟨f, hf, hok⟩ := NewPlan_ok v l mk h1 h2 h3 h4
  rw [hok]
  simp only [outGrid]
  intro y x
  exact gridRoleOK_mplanRows f 0
    (gridRoleOK_gsets (roleOK_fwrites _ _) (gridRoleOK_vgrid v.toNat)) y x

/-- Witness for C1 (amended) at version 1, level M, mask 0, cell (9, 9). -/
theorem C1_no_data_cells_witness :
    Pixel.Role (gget (outGrid (NewPlan 1 1 0)) 9 9) ≠ Data ∧
    Pixel.Role (gget (outGrid (NewPlan 1 1 0)) 9 9) ≠ Check :=
  C1_no_data_cells 1 1 0 (by decide) (by decide) (by decide) (by decide) 9 9

set_option maxRecDepth 200000 in
/-- C1 counterexample: at version 1 (level M, mask 0), the cell at row 9,
column 9 belongs to no timing, position, alignment or format pattern, so
per the claim it should carry role Data or Check; its role is none (0). -/
theorem C1_no_data_cells_counterexample :
    Pixel.Role (gget (outGrid (NewPlan 1 1 0)) 9 9) = 0 ∧
    (0 : Nat) ≠ Data ∧ (0 : Nat) ≠ Check := by
  refine ⟨by decide, by decide, by decide⟩

/-! ### Write domains of the geometry stages -/

theorem gget_timing_untouched {siz y x : Nat} (hy : y ≠ 6) (hx : x ≠ 6) (m : Grid) :
    gget (timingGrid siz m) y x = gget m y x := by
  apply gget_gsets_notmem
  intro w hw hc
  obtain ⟨i, _, hmem⟩ := List.mem_flatMap.mp hw
  dsimp only at hmem
  rcases List.mem_cons.mp hmem with rfl | hmem2
  · simp only [Prod.mk.injEq] at hc
    exact hx hc.2.symm
  · rcases List.mem_cons.mp hmem2 with rfl | hmem3
    · simp only [Prod.mk.injEq] at hc
      exact hy hc.1.symm
    · simp at hmem3

theorem posBoxWrites_bounds (len x0 y0 : Nat) :
    ∀ w ∈ posBoxCoreWrites x0 y0 ++ posBoxBorderWrites len x0 y0,
      y0 - 1 ≤ w.1.1 ∧ w.1.1 ≤ y0 + 7 ∧ x0 - 1 ≤ w.1.2 ∧ w.1.2 ≤ x0 + 7 := by
  intro w hw
  rcases List.mem_append.mp hw with h | h
  · obtain ⟨dy, hdy, hmem⟩ := List.mem_flatMap.mp h
    obtain ⟨dx, hdx, hval⟩ := List.mem_map.mp hmem
    rw [List.mem_range] at hdy hdx
    rw [← hval]
    dsimp only
    omega
  · rcases List.mem_append.mp h with h2 | h2 <;>
    · obtain ⟨d, hd, hmem⟩ := List.mem_flatMap.mp h2
      have hdb : -1 ≤ d ∧ d ≤ 7 := by
        simp only [intRange9, List.mem_cons, List.not_mem_nil, or_false] at hd
        omega
      split at hmem
      · rcases List.mem_append.mp hmem with h3 | h3 <;>
        · split at h3
          · rcases List.mem_cons.mp h3 with rfl | h4
            · dsimp only
              omega
            · simp at h4
          · simp at h3
      · simp at hmem

theorem gget_posBox_untouched {x0 y0 y x : Nat} (m : Grid)
    (h : ¬(y0 - 1 ≤ y ∧ y ≤ y0 + 7 ∧ x0 - 1 ≤ x ∧ x ≤ x0 + 7)) :
    gget (posBox m x0 y0) y x = gget m y x := by
  apply gget_gsets_notmem
  intro w hw hc
  have hb := posBoxWrites_bounds m.length x0 y0 w hw
  rw [hc] at hb
  exact h hb

theorem alignWrites_bounds (x0 y0 : Nat) :
    ∀ w ∈ alignWrites x0 y0,
      y0 ≤ w.1.1 ∧ w.1.1 ≤ y0 + 4 ∧ x0 ≤ w.1.2 ∧ w.1.2 ≤ x0 + 4 := by
  intro w hw
  obtain ⟨dy, hdy, hmem⟩ := List.mem_flatMap.mp hw
  obtain ⟨dx, hdx, hval⟩ := List.mem_map.mp hmem
  rw [List.mem_range] at hdy hdx
  rw [← hval]
  dsimp only
  omega

theorem gget_alignBox_untouched {x0 y0 y x : Nat} (m : Grid)
    (h : ¬(y0 ≤ y ∧ y ≤ y0 + 4 ∧ x0 ≤ x ∧ x ≤ x0 + 4)) :
    gget (alignBox m x0 y0) y x = gget m y x := by
  apply gget_gsets_notmem
  intro w hw hc
  have hb := alignWrites_bounds x0 y0 w hw
  rw [hc] at hb
  exact h hb

theorem gget_alignGrid_untouched {apos astride siz y x : Nat} (m : Grid)
    (h : ∀ b ∈ stampedPairs apos astride siz,
      ¬(b.2 ≤ y ∧ y ≤ b.2 + 4 ∧ b.1 ≤ x ∧ x ≤ b.1 + 4)) :
    gget (alignGrid apos astride siz m) y x = gget m y x :=
  gget_foldl_eq _ _ (fun g b hb => gget_alignBox_untouched g (h b hb)) m

/-! ### The format area is empty after `vplan` -/



/-- In every version, every stamped alignment box avoids the format region
(checked over the version table). -/
theorem stamped_avoid_fzone :
    ∀ k, k < 40 →
      ∀ b ∈ stampedPairs (vinfo (k + 1)).1 (vinfo (k + 1)).2 (vsiz (k + 1)),
        boxAvoidsZone (vsiz (k + 1)) b.1 b.2 := by
  decide

theorem ftargets_props {siz : Nat} (h21 : 21 ≤ siz) {y x : Nat}
    (hmem : (y, x) ∈ ftargets siz) :
    inFZone siz y x ∧ y ≠ 6 ∧ x ≠ 6 := by
  rw [ftargets_eq] at hmem
  unfold inFZone
  simp only [List.mem_cons, List.not_mem_nil, or_false, Prod.mk.injEq] at hmem
  omega

/-- After `vplan`, every cell of the format region away from the timing
strip is still zero (role none, no flags). -/
theorem vgrid_zero_at_fzone (v : Nat) (hv1 : 1 ≤ v) (hv2 : v ≤ 40)
    {y x : Nat} (hz : inFZone (vsiz v) y x) (hy6 : y ≠ 6) (hx6 : x ≠ 6) :
    gget (vgrid v) y x = 0 := by
  have h21 : 21 ≤ vsiz v := by unfold vsiz; omega
  have halign : ∀ b ∈ stampedPairs (vinfo v).1 (vinfo v).2 (vsiz v),
      ¬(b.2 ≤ y ∧ y ≤ b.2 + 4 ∧ b.1 ≤ x ∧ x ≤ b.1 + 4) := by
    intro b hb hfoot
    have hv : v - 1 + 1 = v := by omega
    have havoid := stamped_avoid_fzone (v - 1) (by omega)
    rw [hv] at havoid
    have := havoid b hb (y - b.2) (by omega) (x - b.1) (by omega)
    apply this
    have hy2 : b.2 + (y - b.2) = y := by omega
    have hx2 : b.1 + (x - b.1) = x := by omega
    rw [hy2, hx2]
    exact hz
  unfold vgrid
  rw [gget_alignGrid_untouched _ halign]
  rw [gget_posBox_untouched _ (by unfold inFZone at hz; omega)]
  rw [gget_posBox_untouched _ (by unfold inFZone at hz; omega)]
  rw [gget_posBox_untouched _ (by unfold inFZone at hz; omega)]
  rw [show timingGrid (vsiz v) (initGrid (vsiz v)) =
    gsets (initGrid (vsiz v)) (timingWrites (vsiz v)) from rfl]
  rw [show gsets (initGrid (vsiz v)) (timingWrites (vsiz v)) =
    timingGrid (vsiz v) (initGrid (vsiz v)) from rfl]
  rw [gget_timing_untouched hy6 hx6]
  exact gget_initGrid _ _ _

/-! ### Claim theorem: geometry cells survive the later stages -/

/-- C9: for every valid (version, level, mask), every cell whose role after
`vplan` is position, alignment or timing holds exactly the same pixel (in
particular the same black flag) in the final `NewPlan` grid: `fplan` only
writes cells that are empty after `vplan`, and `mplan` only touches
Data/Check cells. -/
theorem C9_patterns_preserved (v : Int) (l : Nat) (mk : Int)
    (h1 : 1 ≤ v) (h2 : v ≤ 40) (h3 : 0 ≤ mk) (h4 : mk ≤ 7) (y x : Nat)
    (hrole : Pixel.Role (gget (vgrid v.toNat) y x) = Position ∨
      Pixel.Role (gget (vgrid v.toNat) y x) = Alignment ∨
      Pixel.Role (gget (vgrid v.toNat) y x) = Timing) :
    gget (outGrid (NewPlan v l mk)) y x = gget (vgrid v.toNat) y x := by
  obtain ⟨f, hf, hok⟩ := NewPlan_ok v l mk h1 h2 h3 h4
  have h21 : 21 ≤ vsiz v.toNat := by unfold vsiz; omega
  rw [hok]
  simp only [outGrid]
  rw [(sized_vgrid v.toNat).1]
  have hnotin : (y, x) ∉ ftargets (vsiz v.toNat) := by
    intro hmem
    obtain ⟨hz, hy6, hx6⟩ := ftargets_props h21 hmem
    have h0 : gget (vgrid v.toNat) y x = 0 :=
      vgrid_zero_at_fzone v.toNat (by omega) (by omega) hz hy6 hx6
    rw [h0] at hrole
    rcases hrole with h | h | h <;> exact absurd h (by decide)
  rw [mplanRows_gget, Nat.zero_add, gget_fplan_untouched hnotin]
  exact mstep_eq_of_role
    (by rcases hrole with h | h | h <;> rw [h] <;> decide)
    (by rcases hrole with h | h | h <;> rw [h] <;> decide)

set_option maxRecDepth 200000 in
/-- Witness for C9 at version 1, cell (0,0) (a position-box corner). -/
theorem C9_patterns_preserved_witness :
    gget (outGrid (NewPlan 1 1 0)) 0 0 = gget (vgrid (1 : Int).toNat) 0 0 :=
  C9_patterns_preserved 1 1 0 (by decide) (by decide) (by decide) (by decide) 0 0
    (Or.inl (by decide))

/-! ### Alignment-box placement against the spec's rule -/



/-- For every version, the boxes `vplan` stamps are exactly the ones the
spec's generation rule produces (checked against the version table). -/
theorem stamped_eq_spec :
    ∀ k, k < 40 →
      stampedPairs (vinfo (k + 1)).1 (vinfo (k + 1)).2 (vsiz (k + 1)) =
        specPairs (vinfo (k + 1)).1 (vinfo (k + 1)).2 (vsiz (k + 1)) := by
  decide

/-- For every version, no stamped box overlaps a finder box or its border. -/
theorem stamped_no_overlap :
    ∀ k, k < 40 →
      ∀ b ∈ stampedPairs (vinfo (k + 1)).1 (vinfo (k + 1)).2 (vsiz (k + 1)),
        ¬ overlapsFinder (vsiz (k + 1)) b.1 b.2 := by
  decide

/-- For every version, the stamped boxes have pairwise disjoint 5x5
footprints. -/
theorem stamped_pairwise_disjoint :
    ∀ k, k < 40 →
      (stampedPairs (vinfo (k + 1)).1 (vinfo (k + 1)).2 (vsiz (k + 1))).Pairwise
        (fun b c => b.1 + 4 < c.1 ∨ c.1 + 4 < b.1 ∨ b.2 + 4 < c.2 ∨ c.2 + 4 < b.2) := by
  decide

theorem stamped_disjoint {k : Nat} (hk : k < 40) :
    ∀ b ∈ stampedPairs (vinfo (k + 1)).1 (vinfo (k + 1)).2 (vsiz (k + 1)),
      ∀ c ∈ stampedPairs (vinfo (k + 1)).1 (vinfo (k + 1)).2 (vsiz (k + 1)),
        c ≠ b →
        c.1 + 4 < b.1 ∨ b.1 + 4 < c.1 ∨ c.2 + 4 < b.2 ∨ b.2 + 4 < c.2 := by
  have hp := stamped_pairwise_disjoint k hk
  have hs : Symmetric (fun b c : Nat × Nat =>
      b.1 + 4 < c.1 ∨ c.1 + 4 < b.1 ∨ b.2 + 4 < c.2 ∨ c.2 + 4 < b.2) := by
    intro a b h
    omega
  intro b hb c hc hne
  have := List.Pairwise.forall hs hp hc hb hne
  omega

theorem avalsGo_mem_bound (apos astride siz : Nat) :
    ∀ (fuel x0 : Nat), ∀ x ∈ avalsGo apos astride siz x0 fuel, x + 5 < siz
  | 0, x0 => by
    intro x hx
    simp [avalsGo] at hx
  | fuel + 1, x0 => by
    intro x hx
    unfold avalsGo at hx
    split at hx
    · rcases List.mem_cons.mp hx with rfl | h
      · assumption
      · exact avalsGo_mem_bound apos astride siz fuel _ x h
    · simp at hx

theorem stampedPairs_bound {apos astride siz : Nat} :
    ∀ b ∈ stampedPairs apos astride siz, b.1 + 5 < siz ∧ b.2 + 5 < siz := by
  intro b hb
  obtain ⟨x, hx, hmem⟩ := List.mem_flatMap.mp hb
  obtain ⟨y, hy, hval⟩ := List.mem_filterMap.mp hmem
  have hxb := avalsGo_mem_bound apos astride siz siz 4 x hx
  have hyb := avalsGo_mem_bound apos astride siz siz 4 y hy
  split at hval
  · exact absurd hval (by simp)
  · have : (x, y) = b := by
      injection hval
    rw [← this]
    exact ⟨hxb, hyb⟩

/-! ### Values inside a stamped alignment box -/

theorem alignWrites_map_fst (x0 y0 : Nat) :
    (alignWrites x0 y0).map Prod.fst =
      [(y0, x0), (y0, x0 + 1), (y0, x0 + 2), (y0, x0 + 3), (y0, x0 + 4),
       (y0 + 1, x0), (y0 + 1, x0 + 1), (y0 + 1, x0 + 2), (y0 + 1, x0 + 3), (y0 + 1, x0 + 4),
       (y0 + 2, x0), (y0 + 2, x0 + 1), (y0 + 2, x0 + 2), (y0 + 2, x0 + 3), (y0 + 2, x0 + 4),
       (y0 + 3, x0), (y0 + 3, x0 + 1), (y0 + 3, x0 + 2), (y0 + 3, x0 + 3), (y0 + 3, x0 + 4),
       (y0 + 4, x0), (y0 + 4, x0 + 1), (y0 + 4, x0 + 2), (y0 + 4, x0 + 3), (y0 + 4, x0 + 4)] :=
  rfl

theorem alignWrites_nodup (x0 y0 : Nat) : ((alignWrites x0 y0).map Prod.fst).Nodup := by
  rw [alignWrites_map_fst]
  simp only [List.nodup_cons, List.mem_cons, List.not_mem_nil, or_false, not_or,
    Prod.mk.injEq, not_and, List.nodup_nil, and_true]
  norm_num

theorem gget_alignBox_cell {siz x0 y0 dy dx : Nat} (hdy : dy < 5) (hdx : dx < 5)
    (hy : y0 + dy < siz) (hx : x0 + dx < siz) {g : Grid} (hg : sized siz g) :
    gget (alignBox g x0 y0) (y0 + dy) (x0 + dx) =
      (if dx == 0 || dx == 4 || dy == 0 || dy == 4 || (dx == 2 && dy == 2)
       then rolePixel Alignment ||| Black else rolePixel Alignment) := by
  have hmem : ((y0 + dy, x0 + dx),
      (if dx == 0 || dx == 4 || dy == 0 || dy == 4 || (dx == 2 && dy == 2)
       then rolePixel Alignment ||| Black else rolePixel Alignment)) ∈ alignWrites x0 y0 := by
    refine List.mem_flatMap.mpr ⟨dy, List.mem_range.mpr hdy, ?_⟩
    exact List.mem_map.mpr ⟨dx, List.mem_range.mpr hdx, rfl⟩
  exact gget_gsets_last (alignWrites x0 y0) hy hx hmem
    (nodup_last (alignWrites_nodup x0 y0) hmem) g hg

/-- Value propagation through a left fold when one list element pins the
cell's value and every other element leaves the cell alone. -/
theorem gget_foldl_value {β : Type} (f : Grid → β → Grid) (P : Grid → Prop)
    (y x : Nat) (val : Pixel) (b : β) (l : List β)
    (hinv : ∀ g c, c ∈ l → P g → P (f g c))
    (hvalue : ∀ g, P g → gget (f g b) y x = val)
    (huntouched : ∀ g c, c ∈ l → c ≠ b → gget (f g c) y x = gget g y x)
    (hmem : b ∈ l) :
    ∀ g0, P g0 → gget (l.foldl f g0) y x = val := by
  induction l with
  | nil => simp at hmem
  | cons c l ih =>
    intro g0 hP0
    rw [List.foldl_cons]
    by_cases hc : b ∈ l
    · exact ih (fun g c2 h2 => hinv g c2 (List.mem_cons_of_mem _ h2))
        (fun g c2 h2 => huntouched g c2 (List.mem_cons_of_mem _ h2)) hc _
        (hinv g0 c (List.mem_cons_self _ _) hP0)
    · have hcb : c = b := by
        rcases List.mem_cons.mp hmem with h | h
        · exact h.symm
        · exact absurd h hc
      subst hcb
      have hrest : gget (l.foldl f (f g0 c)) y x = gget (f g0 c) y x :=
        gget_foldl_eq f l
          (fun g c2 h2 => huntouched g c2 (List.mem_cons_of_mem _ h2)
            (fun he => hc (he ▸ h2))) _
      rw [hrest, hvalue g0 hP0]

/-! ### No Alignment role outside the stamped boxes -/

/-- Pointwise grid predicates survive `gsets` whose written values satisfy
them. -/
theorem gridPred_gsets (Q : Pixel → Prop) {ws : List ((Nat × Nat) × Pixel)}
    (hws : ∀ w ∈ ws, Q w.2) {g : Grid} (hg : ∀ y x, Q (gget g y x)) :
    ∀ y x, Q (gget (gsets g ws) y x) := by
  unfold gsets
  refine foldl_inv _ (fun g2 => ∀ y x, Q (gget g2 y x)) ws g hg ?_
  intro b w hw hb y x
  rcases gget_gset_cases b w.1.1 w.1.2 y x w.2 with h | h
  · rw [h]
    exact hws w hw
  · rw [h]
    exact hb y x

theorem timingWrites_val (siz : Nat) :
    ∀ w ∈ timingWrites siz, w.2 = 12 ∨ w.2 = 13 := by
  intro w hw
  obtain ⟨i, _, hmem⟩ := List.mem_flatMap.mp hw
  dsimp only at hmem
  have hp : (if i &&& 1 == 0 then rolePixel Timing ||| Black else rolePixel Timing) = 12 ∨
      (if i &&& 1 == 0 then rolePixel Timing ||| Black else rolePixel Timing) = 13 := by
    split
    · right; rfl
    · left; rfl
  rcases List.mem_cons.mp hmem with rfl | hmem2
  · exact hp
  · rcases List.mem_cons.mp hmem2 with rfl | hmem3
    · exact hp
    · simp at hmem3

theorem posBoxWrites_val (len x0 y0 : Nat) :
    ∀ w ∈ posBoxCoreWrites x0 y0 ++ posBoxBorderWrites len x0 y0,
      w.2 = 4 ∨ w.2 = 5 := by
  intro w hw
  rcases List.mem_append.mp hw with h | h
  · obtain ⟨dy, _, hmem⟩ := List.mem_flatMap.mp h
    obtain ⟨dx, _, hval⟩ := List.mem_map.mp hmem
    rw [← hval]
    dsimp only
    split
    · right; rfl
    · left; rfl
  · rcases List.mem_append.mp h with h2 | h2 <;>
    · obtain ⟨d, _, hmem⟩ := List.mem_flatMap.mp h2
      split at hmem
      · rcases List.mem_append.mp hmem with h3 | h3 <;>
        · split at h3
          · rcases List.mem_cons.mp h3 with rfl | h4
            · left; rfl
            · simp at h4
          · simp at h3
      · simp at hmem

/-- Before the alignment stage, no cell carries the Alignment role. -/
theorem noAlign_prealigned (v : Nat) :
    ∀ y x, Pixel.Role (gget
      (posBox (posBox (posBox (timingGrid (vsiz v) (initGrid (vsiz v))) 0 0)
        (vsiz v - 7) 0) 0 (vsiz v - 7)) y x) ≠ Alignment := by
  have Q : ∀ p : Pixel, p = 0 ∨ p = 4 ∨ p = 5 ∨ p = 12 ∨ p = 13 →
      Pixel.Role p ≠ Alignment := by
    intro p hp
    rcases hp with rfl | rfl | rfl | rfl | rfl <;> decide
  intro y x
  apply Q
  unfold posBox timingGrid
  apply gridPred_gsets (fun p => p = 0 ∨ p = 4 ∨ p = 5 ∨ p = 12 ∨ p = 13)
  · intro w hw
    rcases posBoxWrites_val _ _ _ w hw with h | h
    · exact Or.inr (Or.inl h)
    · exact Or.inr (Or.inr (Or.inl h))
  apply gridPred_gsets (fun p => p = 0 ∨ p = 4 ∨ p = 5 ∨ p = 12 ∨ p = 13)
  · intro w hw
    rcases posBoxWrites_val _ _ _ w hw with h | h
    · exact Or.inr (Or.inl h)
    · exact Or.inr (Or.inr (Or.inl h))
  apply gridPred_gsets (fun p => p = 0 ∨ p = 4 ∨ p = 5 ∨ p = 12 ∨ p = 13)
  · intro w hw
    rcases posBoxWrites_val _ _ _ w hw with h | h
    · exact Or.inr (Or.inl h)
    · exact Or.inr (Or.inr (Or.inl h))
  apply gridPred_gsets (fun p => p = 0 ∨ p = 4 ∨ p = 5 ∨ p = 12 ∨ p = 13)
  · intro w hw
    rcases timingWrites_val _ w hw with h | h
    · exact Or.inr (Or.inr (Or.inr (Or.inl h)))
    · exact Or.inr (Or.inr (Or.inr (Or.inr h)))
  intro y2 x2
  rw [gget_initGrid]
  exact Or.inl rfl

/-- Value of a footprint cell of a stamped box after the alignment stage,
assuming the stamped footprints are pairwise disjoint. -/
theorem gget_alignGrid_cell {apos astride siz : Nat} {b : Nat × Nat}
    (hb : b ∈ stampedPairs apos astride siz)
    (hdis : ∀ c ∈ stampedPairs apos astride siz, c ≠ b →
      c.1 + 4 < b.1 ∨ b.1 + 4 < c.1 ∨ c.2 + 4 < b.2 ∨ b.2 + 4 < c.2)
    {dy dx : Nat} (hdy : dy < 5) (hdx : dx < 5)
    (hby : b.2 + dy < siz) (hbx : b.1 + dx < siz)
    {m : Grid} (hm : sized siz m) :
    gget (alignGrid apos astride siz m) (b.2 + dy) (b.1 + dx) =
      (if dx == 0 || dx == 4 || dy == 0 || dy == 4 || (dx == 2 && dy == 2)
       then rolePixel Alignment ||| Black else rolePixel Alignment) := by
  have hvalue : ∀ g : Grid, sized siz g →
      gget (alignBox g b.1 b.2) (b.2 + dy) (b.1 + dx) =
        (if dx == 0 || dx == 4 || dy == 0 || dy == 4 || (dx == 2 && dy == 2)
         then rolePixel Alignment ||| Black else rolePixel Alignment) :=
    fun g hg => gget_alignBox_cell hdy hdx hby hbx hg
  have huntouch : ∀ (g : Grid) c, c ∈ stampedPairs apos astride siz → c ≠ b →
      gget (alignBox g c.1 c.2) (b.2 + dy) (b.1 + dx) = gget g (b.2 + dy) (b.1 + dx) := by
    intro g c hc hne
    apply gget_alignBox_untouched
    have := hdis c hc hne
    omega
  unfold alignGrid
  apply gget_foldl_value (fun m c => alignBox m c.1 c.2) (sized siz)
    (b.2 + dy) (b.1 + dx)
    (if dx == 0 || dx == 4 || dy == 0 || dy == 4 || (dx == 2 && dy == 2)
     then rolePixel Alignment ||| Black else rolePixel Alignment) b
    (stampedPairs apos astride siz)
  · exact fun g c _ hg => sized_gsets _ hg
  · exact hvalue
  · exact huntouch
  · exact hb
  · exact hm

/-! ### Claim theorem: alignment-box placement -/

set_option maxHeartbeats 2000000 in
/-- C8: for every version 1..40, (a) the box corners `vplan` stamps are
exactly the candidates of the spec's per-axis walk (start 4, jump to apos,
step astride until exceeding size-9) minus those whose 5x5 footprint
overlaps a finder box or its light border; (b) hence no stamped box
overlaps a finder footprint or border, and each stamped box appears in the
`vplan` grid as the 5x5 pattern with black ring and center, light
elsewhere; (c) every Alignment-role cell lies inside a stamped box; and
(d) version 1 stamps no alignment box at all. -/
theorem C8_alignment_placement (v : Int) (h1 : 1 ≤ v) (h2 : v ≤ 40) :
    stampedPairs (vinfo v.toNat).1 (vinfo v.toNat).2 (vsiz v.toNat) =
      specPairs (vinfo v.toNat).1 (vinfo v.toNat).2 (vsiz v.toNat) ∧
    (∀ b ∈ stampedPairs (vinfo v.toNat).1 (vinfo v.toNat).2 (vsiz v.toNat),
      ¬ overlapsFinder (vsiz v.toNat) b.1 b.2 ∧
      ∀ dy, dy < 5 → ∀ dx, dx < 5 →
        gget (vgrid v.toNat) (b.2 + dy) (b.1 + dx) =
          (if dx == 0 || dx == 4 || dy == 0 || dy == 4 || (dx == 2 && dy == 2)
           then rolePixel Alignment ||| Black else rolePixel Alignment)) ∧
    (∀ y x : Nat, Pixel.Role (gget (vgrid v.toNat) y x) = Alignment →
      ∃ b ∈ stampedPairs (vinfo v.toNat).1 (vinfo v.toNat).2 (vsiz v.toNat),
        b.2 ≤ y ∧ y ≤ b.2 + 4 ∧ b.1 ≤ x ∧ x ≤ b.1 + 4) ∧
    (v = 1 → stampedPairs (vinfo v.toNat).1 (vinfo v.toNat).2 (vsiz v.toNat) = []) := by
  have hk : v.toNat - 1 < 40 := by omega
  have hkv : v.toNat - 1 + 1 = v.toNat := by omega
  have hsizedPre : sized (vsiz v.toNat)
      (posBox (posBox (posBox (timingGrid (vsiz v.toNat) (initGrid (vsiz v.toNat))) 0 0)
        (vsiz v.toNat - 7) 0) 0 (vsiz v.toNat - 7)) :=
    sized_posBox (sized_posBox (sized_posBox (sized_gsets _ (sized_initGrid _)) _ _) _ _) _ _
  refine ⟨?_, ?_, ?_, ?_⟩
  · have h := stamped_eq_spec (v.toNat - 1) hk
    rwa [hkv] at h
  · intro b hb
    have hover := stamped_no_overlap (v.toNat - 1) hk
    rw [hkv] at hover
    refine ⟨hover b hb, ?_⟩
    intro dy hdy dx hdx
    have hbound := stampedPairs_bound b hb
    have hdis := stamped_disjoint hk
    rw [hkv] at hdis
    unfold vgrid
    exact gget_alignGrid_cell hb (fun c hc hne => hdis b hb c hc hne) hdy hdx
      (by omega) (by omega) hsizedPre
  · intro y x hrole
    by_contra hcon
    have huntouch : ∀ b ∈ stampedPairs (vinfo v.toNat).1 (vinfo v.toNat).2 (vsiz v.toNat),
        ¬(b.2 ≤ y ∧ y ≤ b.2 + 4 ∧ b.1 ≤ x ∧ x ≤ b.1 + 4) := by
      intro b hb hfoot
      exact hcon ⟨b, hb, hfoot⟩
    unfold vgrid at hrole
    rw [gget_alignGrid_untouched _ huntouch] at hrole
    exact noAlign_prealigned v.toNat y x hrole
  · intro hv
    subst hv
    decide

/-- Witness for C8 at version 7 (the first version with alignment boxes). -/
theorem C8_alignment_placement_witness :
    stampedPairs (vinfo (7 : Int).toNat).1 (vinfo (7 : Int).toNat).2 (vsiz (7 : Int).toNat) =
      specPairs (vinfo (7 : Int).toNat).1 (vinfo (7 : Int).toNat).2 (vsiz (7 : Int).toNat) ∧
    (∀ b ∈ stampedPairs (vinfo (7 : Int).toNat).1 (vinfo (7 : Int).toNat).2
        (vsiz (7 : Int).toNat),
      ¬ overlapsFinder (vsiz (7 : Int).toNat) b.1 b.2 ∧
      ∀ dy, dy < 5 → ∀ dx, dx < 5 →
        gget (vgrid (7 : Int).toNat) (b.2 + dy) (b.1 + dx) =
          (if dx == 0 || dx == 4 || dy == 0 || dy == 4 || (dx == 2 && dy == 2)
           then rolePixel Alignment ||| Black else rolePixel Alignment)) ∧
    (∀ y x : Nat, Pixel.Role (gget (vgrid (7 : Int).toNat) y x) = Alignment →
      ∃ b ∈ stampedPairs (vinfo (7 : Int).toNat).1 (vinfo (7 : Int).toNat).2
          (vsiz (7 : Int).toNat),
        b.2 ≤ y ∧ y ≤ b.2 + 4 ∧ b.1 ≤ x ∧ x ≤ b.1 + 4) ∧
    ((7 : Int) = 1 → stampedPairs (vinfo (7 : Int).toNat).1 (vinfo (7 : Int).toNat).2
        (vsiz (7 : Int).toNat) = []) :=
  C8_alignment_placement 7 (by decide) (by decide)

/-- Witness for C7 at the concrete plan `plan0` with mask 1. -/
theorem C7_mask_invert_witness :
    ∃ p2, mplan 1 plan0 = some p2 ∧
      ∀ y x : Nat,
        (gget p2.Pixel y x).testBit 0 = (gget plan0.Pixel y x).testBit 0 ∧
        ((Pixel.Role (gget plan0.Pixel y x) = Data ∨
            Pixel.Role (gget plan0.Pixel y x) = Check) →
          (gget p2.Pixel y x).testBit 1 =
            ((gget plan0.Pixel y x).testBit 1 ||
              mfunc.getD (1 : Int).toNat (fun _ _ => false) x y)) ∧
        (¬(Pixel.Role (gget plan0.Pixel y x) = Data ∨
            Pixel.Role (gget plan0.Pixel y x) = Check) →
          gget p2.Pixel y x = gget plan0.Pixel y x) :=
  C7_mask_invert plan0 1 (by decide) (by decide)

end QRGo
